import Mathlib

/-!
# Verification of the PromoSearchMCP retrieval-ranking-placement pipeline

Shallow embedding of the core algorithmic content of the repository:

* `src/models/embedder.py` — mock embeddings, the promotion index with
  profile-boosted similarity search;
* `src/models/ranker.py` — feature extraction and the deterministic
  fallback scorer;
* `src/mcp_server/tools/optimize_ad_slots.py` — ad slot placement.

Python dictionaries are modelled as structures with `Option` fields
(`dict.get(key, default)` becomes `Option.getD`), floats as rationals,
and numpy / hashing primitives as explicit function parameters.
-/

namespace PromoSearch

/-- A promotion record (a Python dict in the source); fields that the core
reads via `dict.get` are `Option`-valued, `categories` defaults to `[]`. -/
structure Promo where
  id : Option String := none
  title : Option String := none
  description : Option String := none
  link : Option String := none
  categories : List String := []
  price_tier : Option String := none
  base_ctr : Option ℚ := none
deriving DecidableEq, Repr, Inhabited

/-- A user profile (a Python dict in the source). -/
structure Profile where
  user_type : Option String := none
  interests : List String := []
  budget_level : Option String := none
deriving DecidableEq, Repr, Inhabited

/-- `PromotionIndex._apply_user_profile_boost` from `src/models/embedder.py`
(lines 193-214): interest-overlap boost of `0.1` per overlapping tag
(Python `set` intersection, hence `List.toFinset`), a budget-match term,
and a final cap at `1.0`. -/
def applyUserProfileBoost (base_score : ℚ) (promotion : Promo) (user_profile : Profile) : ℚ :=
  let interest_overlap :=
    (user_profile.interests.toFinset ∩ promotion.categories.toFinset).card
  let boosted1 :=
    if 0 < interest_overlap then base_score + (1 / 10) * interest_overlap else base_score
  let user_budget := user_profile.budget_level.getD "medium"
  let promo_price_tier := promotion.price_tier.getD "medium"
  let boosted2 :=
    if user_budget = promo_price_tier then boosted1 + 5 / 100
    else if (user_budget = "high" ∧ promo_price_tier = "medium") ∨
            (user_budget = "medium" ∧ promo_price_tier = "low") then boosted1 + 2 / 100
    else boosted1
  min boosted2 1

/-- C3: the boosted search score equals the base cosine similarity plus
`0.1` per tag in the intersection of profile interests and record
categories, plus a budget term (`0.05` on exact budget/tier match, `0.02`
for (high, medium) or (medium, low), else `0`), clamped above at `1.0`
(and only above: the closed form is an exact `min`, so values below `1`
pass through unchanged, including negative base similarities). -/
theorem boost_closed_form (base_score : ℚ) (promotion : Promo) (user_profile : Profile) :
    applyUserProfileBoost base_score promotion user_profile =
      min (base_score
            + (1 / 10) *
              ((user_profile.interests.toFinset ∩ promotion.categories.toFinset).card : ℚ)
            + (if user_profile.budget_level.getD "medium" = promotion.price_tier.getD "medium"
                then (5 / 100 : ℚ)
               else if (user_profile.budget_level.getD "medium" = "high" ∧
                        promotion.price_tier.getD "medium" = "medium") ∨
                       (user_profile.budget_level.getD "medium" = "medium" ∧
                        promotion.price_tier.getD "medium" = "low")
                then (2 / 100 : ℚ)
               else 0)) 1
    ∧ applyUserProfileBoost base_score promotion user_profile ≤ 1 := by
  constructor
  · have hov : ∀ (b : ℚ) (n : ℕ), (if 0 < n then b + (1 / 10) * n else b) = b + (1 / 10) * n := by
      intro b n
      split_ifs with h
      · rfl
      · simp [Nat.eq_zero_of_not_pos h]
    dsimp only [applyUserProfileBoost]
    rw [hov]
    split_ifs with h1 h2 <;> congr 1 <;> ring
  · unfold applyUserProfileBoost
    exact min_le_right _ _

/-- An embedding vector (a numpy array row in the source). -/
abbrev Emb := List ℚ

/-- A search result: a copy of a stored promotion record together with the
added `score` entry (`promo.copy(); promo[...] = float(similarity)` in
`PromotionIndex.search`). -/
structure ScoredPromo where
  promo : Promo
  score : ℚ
deriving DecidableEq, Repr

/-- The mutable state of `PromotionIndex` from `src/models/embedder.py`. -/
structure IndexState where
  promotions : List Promo
  embeddings : Option (List Emb)
  index_built : Bool
deriving DecidableEq, Repr

/-- The text embedded for a promotion in `build_index`:
`f"{promo.get('title', '')} {promo.get('description', '')}"`. -/
def promoText (p : Promo) : String :=
  p.title.getD "" ++ " " ++ p.description.getD ""

/-- `PromotionIndex.build_index` (lines 118-148). The embedding provider is
the explicit `encode` parameter; the on-disk pickle cache (an IO concern
whose hit path returns previously encoded vectors for the same texts) is
absorbed into `encode`. Note the early return when `promotions` is empty
leaves `index_built` false, exactly as in the source. -/
def buildIndex (encode : List String → List Emb) (s : IndexState) : IndexState :=
  if s.index_built then s
  else if s.promotions = [] then s
  else { s with embeddings := some (encode (s.promotions.map promoText)),
                index_built := true }

/-- The `similarities` list built by the loop in `PromotionIndex.search`
(lines 172-180): one `(similarity, i)` pair per embedding row, with the
profile boost applied when a profile is supplied. -/
def computeSimilarities (simFn : Emb → Emb → ℚ) (query_embedding : Emb) (embs : List Emb)
    (promos : List Promo) (user_profile : Option Profile) : List (ℚ × Nat) :=
  embs.enum.map fun p =>
    let similarity := simFn query_embedding p.2
    let similarity :=
      match user_profile with
      | some prof => applyUserProfileBoost similarity (promos.getD p.1 default) prof
      | none => similarity
    (similarity, p.1)

/-- The ordering realised by `similarities.sort(reverse=True)` on
`(score, index)` tuples: Python compares tuples lexicographically, so on a
list whose second components are pairwise distinct the sorted output is
exactly the descending lexicographic order — higher score first, and for
equal scores the HIGHER index first. -/
def simDescLex (a b : ℚ × Nat) : Prop :=
  b.1 < a.1 ∨ (a.1 = b.1 ∧ b.2 ≤ a.2)

instance : DecidableRel simDescLex := fun a b => by
  unfold simDescLex; infer_instance

instance : IsTotal (ℚ × Nat) simDescLex := by
  constructor
  intro a b
  rcases lt_trichotomy a.1 b.1 with h | h | h
  · exact Or.inr (Or.inl h)
  · rcases Nat.le_total b.2 a.2 with h2 | h2
    · exact Or.inl (Or.inr ⟨h, h2⟩)
    · exact Or.inr (Or.inr ⟨h.symm, h2⟩)
  · exact Or.inl (Or.inl h)

instance : IsTrans (ℚ × Nat) simDescLex := by
  constructor
  intro a b c hab hbc
  rcases hab with h1 | ⟨he1, hi1⟩
  · rcases hbc with h2 | ⟨he2, hi2⟩
    · exact Or.inl (h2.trans h1)
    · exact Or.inl (he2 ▸ h1)
  · rcases hbc with h2 | ⟨he2, hi2⟩
    · exact Or.inl (he1 ▸ h2)
    · exact Or.inr ⟨he1.trans he2, hi2.trans hi1⟩

/-- `PromotionIndex.search` (lines 150-191). `encode` is the embedding
provider, `simFn` the cosine similarity of `EmbeddingModel.similarity`
(numpy float arithmetic, modelled as an abstract rational-valued
function). Returns the results together with the post-call index state.
`similarities.sort(reverse=True)` is modelled by `List.insertionSort
simDescLex`: both produce the unique permutation sorted in descending
lexicographic tuple order, since the index components are distinct. -/
def searchIndex (encode : List String → List Emb) (simFn : Emb → Emb → ℚ)
    (s : IndexState) (query : String) (top_k : Nat) (user_profile : Option Profile) :
    List ScoredPromo × IndexState :=
  let s1 := buildIndex encode s
  match s1.embeddings with
  | none => ([], s1)
  | some embs =>
    if s1.promotions = [] then ([], s1)
    else
      let query_embedding := (encode [query]).headD []
      let similarities :=
        computeSimilarities simFn query_embedding embs s1.promotions user_profile
      let sorted := List.insertionSort simDescLex similarities
      (((sorted.take top_k).map fun p => ScoredPromo.mk (s1.promotions.getD p.2 default) p.1),
        s1)

theorem buildIndex_promotions (encode : List String → List Emb) (s : IndexState) :
    (buildIndex encode s).promotions = s.promotions := by
  unfold buildIndex
  split_ifs <;> rfl

theorem buildIndex_of_built (encode : List String → List Emb) (s : IndexState)
    (h : s.index_built = true) : buildIndex encode s = s := by
  unfold buildIndex
  simp [h]

theorem snd_lt_of_mem_computeSimilarities {simFn : Emb → Emb → ℚ} {qe : Emb}
    {embs : List Emb} {promos : List Promo} {prof : Option Profile} {p : ℚ × Nat}
    (hp : p ∈ computeSimilarities simFn qe embs promos prof) : p.2 < embs.length := by
  unfold computeSimilarities at hp
  rw [List.mem_map] at hp
  obtain ⟨q, hq, rfl⟩ := hp
  rw [List.mem_enum_iff_getElem?] at hq
  have := List.getElem?_eq_some.mp hq
  exact this.1

theorem snd_map_computeSimilarities (simFn : Emb → Emb → ℚ) (qe : Emb)
    (embs : List Emb) (promos : List Promo) (prof : Option Profile) :
    (computeSimilarities simFn qe embs promos prof).map Prod.snd = List.range embs.length := by
  unfold computeSimilarities
  rw [List.map_map]
  have : (Prod.snd ∘ fun p : Nat × Emb =>
      ((match prof with
        | some pr => applyUserProfileBoost (simFn qe p.2) (promos.getD p.1 default) pr
        | none => simFn qe p.2), p.1)) = Prod.fst := by
    funext p
    rfl
  rw [this, List.enum_map_fst]

theorem length_computeSimilarities (simFn : Emb → Emb → ℚ) (qe : Emb)
    (embs : List Emb) (promos : List Promo) (prof : Option Profile) :
    (computeSimilarities simFn qe embs promos prof).length = embs.length := by
  unfold computeSimilarities
  rw [List.length_map, List.enum_length]

/-- C10: a `search` call leaves the stored promotion records unchanged
(the post-call state has exactly the same `promotions` list), and every
returned result is a stored record paired with an added score — no stored
record is modified. The hypotheses say the embedding provider is
dimension-per-text (one vector per input text) and that an already-built
state has one embedding row per record, which is how every state produced
by `build_index` looks. -/
theorem search_preserves_promotions (encode : List String → List Emb)
    (simFn : Emb → Emb → ℚ) (s : IndexState) (query : String) (top_k : Nat)
    (user_profile : Option Profile)
    (hlen : ∀ ts, (encode ts).length = ts.length)
    (hwf : s.index_built = true → ∀ embs, s.embeddings = some embs →
      embs.length = s.promotions.length) :
    (searchIndex encode simFn s query top_k user_profile).2.promotions = s.promotions ∧
    ∀ r ∈ (searchIndex encode simFn s query top_k user_profile).1,
      r.promo ∈ s.promotions := by
  have hembslen : ∀ embs, (buildIndex encode s).embeddings = some embs →
      (buildIndex encode s).promotions ≠ [] →
      embs.length = (buildIndex encode s).promotions.length := by
    intro embs hembs hne
    rw [buildIndex_promotions] at hne ⊢
    unfold buildIndex at hembs
    by_cases hb : s.index_built = true
    · rw [if_pos hb] at hembs
      exact hwf hb embs hembs
    · rw [if_neg hb] at hembs
      by_cases hz : s.promotions = []
      · exact absurd hz hne
      · rw [if_neg hz] at hembs
        simp only [Option.some.injEq] at hembs
        rw [← hembs, hlen, List.length_map]
  unfold searchIndex
  cases hE : (buildIndex encode s).embeddings with
  | none =>
    simp only [hE]
    exact ⟨buildIndex_promotions encode s, by intro r hr; simp at hr⟩
  | some embs =>
    simp only [hE]
    by_cases hz : (buildIndex encode s).promotions = []
    · rw [if_pos hz]
      exact ⟨buildIndex_promotions encode s, by intro r hr; simp at hr⟩
    · rw [if_neg hz]
      refine ⟨buildIndex_promotions encode s, ?_⟩
      intro r hr
      rw [List.mem_map] at hr
      obtain ⟨p, hp, rfl⟩ := hr
      have hpmem : p ∈ computeSimilarities simFn ((encode [query]).headD []) embs
          (buildIndex encode s).promotions user_profile := by
        have h1 := (List.take_sublist top_k _).subset hp
        exact (List.perm_insertionSort simDescLex _).subset h1
      have hlt : p.2 < (buildIndex encode s).promotions.length := by
        have := snd_lt_of_mem_computeSimilarities hpmem
        rwa [hembslen embs hE hz] at this
      rw [← buildIndex_promotions encode s]
      simp only [List.getD_eq_getElem _ _ hlt]
      exact List.getElem_mem hlt

/-- C2 (amended): search returns at most `min top_k N` results, sorted by
non-increasing score; but ties between equal scores appear in DESCENDING
insertion order (the later-inserted record first), because
`similarities.sort(reverse=True)` compares whole `(score, index)` tuples.
The witness list `W` is a permutation of the similarity list that is
strictly sorted: higher score first, and on equal scores the higher
original index first, and the output is exactly its `top_k` prefix. -/
theorem search_order_spec (encode : List String → List Emb) (simFn : Emb → Emb → ℚ)
    (s : IndexState) (query : String) (top_k : Nat) (user_profile : Option Profile)
    (embs : List Emb)
    (hbuilt : s.index_built = true)
    (hembs : s.embeddings = some embs)
    (hlen : embs.length = s.promotions.length) :
    (searchIndex encode simFn s query top_k user_profile).1.length ≤
        min top_k s.promotions.length ∧
    (searchIndex encode simFn s query top_k user_profile).1.Pairwise
        (fun a b => b.score ≤ a.score) ∧
    ∃ W : List (ℚ × Nat),
      W.Perm (computeSimilarities simFn ((encode [query]).headD []) embs
        s.promotions user_profile) ∧
      W.Pairwise (fun a b => b.1 < a.1 ∨ (a.1 = b.1 ∧ b.2 < a.2)) ∧
      (searchIndex encode simFn s query top_k user_profile).1 =
        (W.take top_k).map fun p => ScoredPromo.mk (s.promotions.getD p.2 default) p.1 := by
  have hs1 : buildIndex encode s = s := buildIndex_of_built encode s hbuilt
  unfold searchIndex
  simp only [hs1, hembs]
  by_cases hz : s.promotions = []
  · rw [if_pos hz]
    have hembs0 : embs = [] := by
      rw [← List.length_eq_zero, hlen, hz]
      rfl
    subst hembs0
    refine ⟨by simp, by simp, [], ?_, by simp, ?_⟩
    · unfold computeSimilarities
      simp
    · simp
  · rw [if_neg hz]
    set sims := computeSimilarities simFn ((encode [query]).headD []) embs
      s.promotions user_profile with hsims
    set W := List.insertionSort simDescLex sims with hW
    have hperm : W.Perm sims := List.perm_insertionSort simDescLex sims
    have hsorted : W.Pairwise simDescLex := List.sorted_insertionSort simDescLex sims
    have hWlen : W.length = s.promotions.length := by
      rw [hperm.length_eq, hsims, length_computeSimilarities, hlen]
    have hnodup : (W.map Prod.snd).Nodup := by
      have h1 : (sims.map Prod.snd).Nodup := by
        rw [hsims, snd_map_computeSimilarities]
        exact List.nodup_range _
      exact ((hperm.map Prod.snd).symm).nodup h1
    have hne : W.Pairwise (fun a b => a.2 ≠ b.2) := List.pairwise_map.mp hnodup
    have hstrict : W.Pairwise (fun a b => b.1 < a.1 ∨ (a.1 = b.1 ∧ b.2 < a.2)) := by
      refine (hsorted.and hne).imp ?_
      rintro a b ⟨hab, hneq⟩
      rcases hab with hlt | ⟨heq, hle⟩
      · exact Or.inl hlt
      · exact Or.inr ⟨heq, lt_of_le_of_ne hle hneq.symm⟩
    refine ⟨?_, ?_, W, hperm, hstrict, rfl⟩
    · rw [List.length_map, List.length_take, hWlen]
    · rw [List.pairwise_map]
      refine ((hsorted.sublist (List.take_sublist top_k W)).imp ?_)
      intro a b hab
      rcases hab with hlt | ⟨heq, _⟩
      · exact le_of_lt hlt
      · exact le_of_eq heq.symm

/-- Two-record index whose records embed identically, so both similarity
scores are equal: the input for refuting the tie-order part of C2. -/
def tieState : IndexState :=
  ⟨[{ id := some "a" }, { id := some "b" }], some [[], []], true⟩

/-- The search results on `tieState` with a constant similarity function. -/
def tieOut : List ScoredPromo :=
  (searchIndex (fun ts => ts.map fun _ => []) (fun _ _ => 1) tieState "q" 2 none).1

/-- C2 counterexample: on a two-record index with equal similarity scores,
the results do NOT appear in original insertion order — the stored-list
position of the first result is not below that of the second, refuting
the stable-by-insertion-order tie rule of the claim (the code emits the
later-inserted record first). -/
theorem search_tie_order_cex :
    ¬ (∀ i j : Fin tieOut.length, i.val < j.val →
        (tieOut.get i).score = (tieOut.get j).score →
        tieState.promotions.indexOf (tieOut.get i).promo <
          tieState.promotions.indexOf (tieOut.get j).promo) := by
  decide

/-- Witness for `search_order_spec`: its hypotheses hold and its
conclusion is realised at the concrete two-record index. -/
theorem search_order_spec_witness :
    tieState.index_built = true ∧
    tieState.embeddings = some [[], []] ∧
    ([[], []] : List Emb).length = tieState.promotions.length ∧
    (tieOut.length ≤ min 2 tieState.promotions.length ∧
    tieOut.Pairwise (fun a b => b.score ≤ a.score) ∧
    ∃ W : List (ℚ × Nat),
      W.Perm (computeSimilarities (fun _ _ => 1) ([] : Emb) [[], []]
        tieState.promotions none) ∧
      W.Pairwise (fun a b => b.1 < a.1 ∨ (a.1 = b.1 ∧ b.2 < a.2)) ∧
      tieOut =
        (W.take 2).map fun p => ScoredPromo.mk (tieState.promotions.getD p.2 default) p.1) :=
  ⟨rfl, rfl, rfl,
    search_order_spec (fun ts => ts.map fun _ => []) (fun _ _ => 1) tieState "q" 2 none
      [[], []] rfl rfl rfl⟩

/-- Witness for `search_preserves_promotions` at a concrete two-record
index with a trivial embedding provider. -/
theorem search_preserves_promotions_witness :
    (∀ ts : List String, (ts.map fun _ => ([] : Emb)).length = ts.length) ∧
    (tieState.index_built = true → ∀ embs, tieState.embeddings = some embs →
      embs.length = tieState.promotions.length) ∧
    ((searchIndex (fun ts => ts.map fun _ => []) (fun _ _ => 1) tieState "q" 2
        none).2.promotions = tieState.promotions ∧
     ∀ r ∈ (searchIndex (fun ts => ts.map fun _ => []) (fun _ _ => 1) tieState "q" 2
        none).1, r.promo ∈ tieState.promotions) :=
  ⟨fun ts => List.length_map ts _,
   fun _ embs he => by cases he; rfl,
   search_preserves_promotions (fun ts => ts.map fun _ => []) (fun _ _ => 1) tieState "q" 2
     none (fun ts => List.length_map ts _) (fun _ embs he => by cases he; rfl)⟩

/-! ## Mock embeddings (`EmbeddingModel._mock_embeddings`) -/

/-- Sum of squared entries: the square of the L2 norm computed by
`np.linalg.norm`. -/
def sumSq (l : List ℚ) : ℚ := (l.map fun x => x * x).sum

/-- `EmbeddingModel._mock_embeddings` for a single text (lines 64-77 of
`src/models/embedder.py`): seed the generator with
`hash(text.lower()) % 1000000`, draw a 384-dimensional vector, and divide
by its L2 norm. `randn` models the seeded `np.random.normal(0, 1, 384)`
draw (a deterministic function of the seed), `hashFn` the Python string
hash, and `sqrtFn` the square root inside `np.linalg.norm` (so the
divisor is `sqrtFn (sumSq v)`). -/
def mockEmbedding (randn : Nat → Fin 384 → ℚ) (hashFn : String → Nat)
    (sqrtFn : ℚ → ℚ) (text : String) : List ℚ :=
  let text_hash := hashFn text.toLower % 1000000
  let embedding := List.ofFn (randn text_hash)
  embedding.map fun x => x / sqrtFn (sumSq embedding)

/-- `EmbeddingModel._mock_embeddings` over a list of texts. -/
def mockEmbeddings (randn : Nat → Fin 384 → ℚ) (hashFn : String → Nat)
    (sqrtFn : ℚ → ℚ) (texts : List String) : List (List ℚ) :=
  texts.map (mockEmbedding randn hashFn sqrtFn)

theorem sumSq_map_div (l : List ℚ) (c : ℚ) :
    sumSq (l.map fun x => x / c) = sumSq l / c ^ 2 := by
  induction l with
  | nil => simp [sumSq]
  | cons x xs ih =>
    simp only [sumSq, List.map_cons, List.sum_cons] at ih ⊢
    rw [ih]
    ring

/-- C7: the fallback embedding provider is deterministic — encoding the
same text twice yields two identical vectors — of fixed dimension 384 and
unit L2 norm (sum of squares equal to one). The hypotheses state that
`sqrtFn` is a square root at the drawn vector and that the drawn vector
is nonzero (a zero draw would make the Python code divide by zero). -/
theorem mock_embedding_deterministic (randn : Nat → Fin 384 → ℚ) (hashFn : String → Nat)
    (sqrtFn : ℚ → ℚ) (text : String)
    (hsq : sqrtFn (sumSq (List.ofFn (randn (hashFn text.toLower % 1000000)))) ^ 2 =
      sumSq (List.ofFn (randn (hashFn text.toLower % 1000000))))
    (hnz : sumSq (List.ofFn (randn (hashFn text.toLower % 1000000))) ≠ 0) :
    mockEmbeddings randn hashFn sqrtFn [text, text] =
      [mockEmbedding randn hashFn sqrtFn text, mockEmbedding randn hashFn sqrtFn text] ∧
    (mockEmbedding randn hashFn sqrtFn text).length = 384 ∧
    sumSq (mockEmbedding randn hashFn sqrtFn text) = 1 := by
  refine ⟨rfl, ?_, ?_⟩
  · dsimp only [mockEmbedding]
    rw [List.length_map, List.length_ofFn]
  · dsimp only [mockEmbedding]
    rw [sumSq_map_div, hsq, div_self hnz]

/-- A concrete 384-dimensional draw: the first standard basis vector. -/
def unitSeed : Fin 384 → ℚ := fun i => if i = 0 then 1 else 0

theorem sumSq_unitSeed : sumSq (List.ofFn unitSeed) = 1 := by
  unfold sumSq unitSeed
  rw [List.map_ofFn, List.sum_ofFn]
  have h : ∀ i : Fin 384,
      ((fun x => x * x) ∘ fun i : Fin 384 => if i = 0 then (1 : ℚ) else 0) i =
        if i = 0 then (1 : ℚ) else 0 := by
    intro i
    simp only [Function.comp]
    split_ifs <;> ring
  rw [Finset.sum_congr rfl fun i _ => h i]
  simp

/-- Witness for `mock_embedding_deterministic` at a concrete basis-vector
draw with the identity-on-one square root. -/
theorem mock_embedding_deterministic_witness :
    ((1 : ℚ) ^ 2 = sumSq (List.ofFn unitSeed)) ∧
    (sumSq (List.ofFn unitSeed) ≠ 0) ∧
    (mockEmbeddings (fun _ => unitSeed) (fun _ => 0) (fun _ => 1) ["t", "t"] =
      [mockEmbedding (fun _ => unitSeed) (fun _ => 0) (fun _ => 1) "t",
       mockEmbedding (fun _ => unitSeed) (fun _ => 0) (fun _ => 1) "t"] ∧
     (mockEmbedding (fun _ => unitSeed) (fun _ => 0) (fun _ => 1) "t").length = 384 ∧
     sumSq (mockEmbedding (fun _ => unitSeed) (fun _ => 0) (fun _ => 1) "t") = 1) :=
  ⟨by rw [sumSq_unitSeed, one_pow], by rw [sumSq_unitSeed]; exact one_ne_zero,
   mock_embedding_deterministic (fun _ => unitSeed) (fun _ => 0) (fun _ => 1) "t"
     (by rw [sumSq_unitSeed, one_pow]) (by rw [sumSq_unitSeed]; exact one_ne_zero)⟩

/-! ## Ranking (`src/models/ranker.py`) -/

/-- `PromotionRanker._calculate_budget_compatibility` (lines 175-189):
a fixed 3x3 table with `0.5` for any unmapped pair. -/
def calculateBudgetCompatibility (user_budget promo_price_tier : String) : ℚ :=
  match user_budget, promo_price_tier with
  | "low", "low" => 1
  | "low", "medium" => 3 / 10
  | "low", "high" => 1 / 10
  | "medium", "low" => 8 / 10
  | "medium", "medium" => 1
  | "medium", "high" => 6 / 10
  | "high", "low" => 9 / 10
  | "high", "medium" => 9 / 10
  | "high", "high" => 1
  | _, _ => 1 / 2

/-- `PromotionRanker._extract_features` (lines 139-173): the fixed
six-feature vector. Python `set(...)` is `List.toFinset`; dictionary
`get` defaults are `Option.getD`; the two `dict.get(key, default)`
numeric maps become if-chains with their default values. -/
def extractFeatures (promotion : Promo) (user_profile : Profile) : List ℚ :=
  let base_ctr := promotion.base_ctr.getD (1 / 10)
  let user_interests := user_profile.interests.toFinset
  let promo_categories := promotion.categories.toFinset
  let interest_match :=
    ((user_interests ∩ promo_categories).card : ℚ) / ((max user_interests.card 1 : ℕ) : ℚ)
  let user_budget := user_profile.budget_level.getD "medium"
  let promo_price_tier := promotion.price_tier.getD "medium"
  let budget_compat := calculateBudgetCompatibility user_budget promo_price_tier
  let category_diversity := (promotion.categories.length : ℚ) / 10
  let price_tier_numeric : ℚ :=
    if promo_price_tier = "low" then 0
    else if promo_price_tier = "medium" then 1 / 2
    else if promo_price_tier = "high" then 1
    else 1 / 2
  let user_type_numeric : ℚ :=
    if user_profile.user_type.getD "casual" = "casual" then 0
    else if user_profile.user_type.getD "casual" = "professional" then 1 / 2
    else if user_profile.user_type.getD "casual" = "enterprise" then 1
    else 0
  [base_ctr, interest_match, budget_compat, category_diversity,
   price_tier_numeric, user_type_numeric]

/-- `np.clip(x, 0.01, 0.5)` applied entrywise in `_mock_predict`. -/
def clipScore (x : ℚ) : ℚ := min (max x (1 / 100)) (1 / 2)

/-- `np.dot(features, weights)` for one feature row with the fixed
weights `[0.4, 0.3, 0.2, 0.05, 0.03, 0.02]`. -/
def dotWeights (f : List ℚ) : ℚ :=
  (List.zipWith (fun w x => w * x) [2 / 5, 3 / 10, 1 / 5, 1 / 20, 3 / 100, 1 / 50] f).sum

/-- `PromotionRanker._mock_predict` (lines 191-205): weighted sum per
row, plus seeded gaussian noise (`np.random.normal(0, 0.02, len(scores))`
after seeding from a hash of the feature bytes — modelled as the function
`noise` of the row position), then clipped to `[0.01, 0.5]`. -/
def mockPredict (noise : Nat → ℚ) (features : List (List ℚ)) : List ℚ :=
  ((features.map dotWeights).enum.map fun p => clipScore (p.2 + noise p.1))

/-- C8: every score returned by the deterministic fallback scorer lies in
the closed interval `[0.01, 0.5]`, for every feature matrix and every
noise draw. -/
theorem mock_predict_bounds (noise : Nat → ℚ) (features : List (List ℚ)) (s : ℚ)
    (hs : s ∈ mockPredict noise features) : 1 / 100 ≤ s ∧ s ≤ 1 / 2 := by
  unfold mockPredict at hs
  rw [List.mem_map] at hs
  obtain ⟨p, _, rfl⟩ := hs
  unfold clipScore
  constructor
  · exact le_min (le_max_right _ _) (by norm_num)
  · exact min_le_right _ _

/-- Witness for `mock_predict_bounds` on a concrete one-row feature
matrix with zero noise. -/
theorem mock_predict_bounds_witness :
    clipScore (dotWeights [1, 0, 0, 0, 0, 0] + 0) ∈
      mockPredict (fun _ => 0) [[1, 0, 0, 0, 0, 0]] ∧
    (1 / 100 ≤ clipScore (dotWeights [1, 0, 0, 0, 0, 0] + 0) ∧
      clipScore (dotWeights [1, 0, 0, 0, 0, 0] + 0) ≤ 1 / 2) :=
  ⟨List.Mem.head _,
   mock_predict_bounds (fun _ => 0) [[1, 0, 0, 0, 0, 0]] _ (List.Mem.head _)⟩

/-- C9: the sixth feature `user_type_numeric` maps `casual` to `0`,
`professional` to `0.5`, `enterprise` to `1`, any other string —
including the `business` value used elsewhere in the system — to `0`, and
a missing `user_type` to `0` (it defaults to `casual`). -/
theorem user_type_numeric_spec (promotion : Promo) (user_profile : Profile) :
    (extractFeatures promotion user_profile).get? 5 =
      some (if user_profile.user_type.getD "casual" = "casual" then (0 : ℚ)
            else if user_profile.user_type.getD "casual" = "professional" then 1 / 2
            else if user_profile.user_type.getD "casual" = "enterprise" then 1
            else 0) ∧
    (extractFeatures promotion
        { user_profile with user_type := some "business" }).get? 5 = some 0 ∧
    (extractFeatures promotion { user_profile with user_type := none }).get? 5 = some 0 ∧
    (extractFeatures promotion { user_profile with user_type := some "casual" }).get? 5 =
      some 0 ∧
    (extractFeatures promotion
        { user_profile with user_type := some "professional" }).get? 5 = some (1 / 2) ∧
    (extractFeatures promotion
        { user_profile with user_type := some "enterprise" }).get? 5 = some 1 := by
  refine ⟨rfl, ?_, ?_, ?_, ?_, ?_⟩ <;> simp [extractFeatures]

/-- One output entry of `rank_promotions`: `{"id": ..., "score": ...}`. -/
structure RankedPromo where
  id : String
  score : ℚ
deriving DecidableEq, Repr

/-- The ordering realised by the stable
`ranked_promotions.sort(key=..., reverse=True)` on entries refined with
their list position: a stable descending sort by score is exactly a sort
by (score descending, original position ascending). -/
def rankedDescStable (a b : Nat × RankedPromo) : Prop :=
  b.2.score < a.2.score ∨ (a.2.score = b.2.score ∧ a.1 ≤ b.1)

instance : DecidableRel rankedDescStable := fun a b =>
  inferInstanceAs (Decidable (b.2.score < a.2.score ∨ (a.2.score = b.2.score ∧ a.1 ≤ b.1)))

instance : IsTotal (Nat × RankedPromo) rankedDescStable := by
  constructor
  intro a b
  rcases lt_trichotomy a.2.score b.2.score with h | h | h
  · exact Or.inr (Or.inl h)
  · rcases Nat.le_total a.1 b.1 with h2 | h2
    · exact Or.inl (Or.inr ⟨h, h2⟩)
    · exact Or.inr (Or.inr ⟨h.symm, h2⟩)
  · exact Or.inl (Or.inl h)

instance : IsTrans (Nat × RankedPromo) rankedDescStable := by
  constructor
  intro a b c hab hbc
  rcases hab with h1 | ⟨he1, hi1⟩
  · rcases hbc with h2 | ⟨he2, _⟩
    · exact Or.inl (h2.trans h1)
    · exact Or.inl (he2 ▸ h1)
  · rcases hbc with h2 | ⟨he2, hi2⟩
    · exact Or.inl (he1 ▸ h2)
    · exact Or.inr ⟨he1.trans he2, hi1.trans hi2⟩

/-- The final `.sort(key=lambda x: x["score"], reverse=True)` of
`rank_promotions`: Python sorting is stable, which on position-refined
entries is the unique `rankedDescStable`-sorted permutation. -/
def sortByScoreDesc (l : List RankedPromo) : List RankedPromo :=
  (List.insertionSort rankedDescStable l.enum).map Prod.snd

/-- `PromotionRanker.rank_promotions` (lines 97-137) with the scorer (the
LightGBM model or `_mock_predict`) as the explicit `predict` parameter:
extract features per candidate, score the batch, build `{id, score}`
entries (defaulting missing ids to `promo_{i}`), and sort by descending
score. -/
def rank_promotions (predict : List (List ℚ) → List ℚ) (candidates : List Promo)
    (user_profile : Profile) : List RankedPromo :=
  if candidates = [] then []
  else
    let features := candidates.map fun c => extractFeatures c user_profile
    let scores := predict features
    let ranked_promotions := (candidates.zip scores).enum.map fun p =>
      RankedPromo.mk (p.2.1.id.getD ("promo_" ++ toString p.1)) p.2.2
    sortByScoreDesc ranked_promotions

theorem zip_enumFrom_map_id (l : List Promo) :
    ∀ (n : Nat) (s : List ℚ), s.length = l.length →
    ((l.zip s).enumFrom n).map (fun p => p.2.1.id.getD ("promo_" ++ toString p.1)) =
      (l.enumFrom n).map fun p => p.2.id.getD ("promo_" ++ toString p.1) := by
  induction l with
  | nil => intro n s _; simp
  | cons a l ih =>
    intro n s hs
    cases s with
    | nil => simp at hs
    | cons b s =>
      simp only [List.zip_cons_cons, List.enumFrom, List.map_cons]
      refine congrArg _ ?_
      exact ih (n + 1) s (by simpa using hs)

theorem enumFrom_map_enumFrom {α β : Type} (f : Nat × α → β) (l : List α) :
    ∀ n : Nat, ((l.enumFrom n).map f).enumFrom n = (l.enumFrom n).map fun p => (p.1, f p) := by
  induction l with
  | nil => intro n; simp
  | cons a l ih =>
    intro n
    simp only [List.enumFrom, List.map_cons]
    exact congrArg _ (ih (n + 1))

/-- C5: ranking returns exactly one `{id, score}` entry per input
candidate (so exactly `candidates.length` entries, whose multiset of ids
is that of the input candidates, with `promo_{i}` for a missing id),
sorted descending by score with ties kept in input order; the empty
candidate list yields the empty output. The witness list `W` pairs each
output entry with its pre-sort position: it is strictly sorted by
(score descending, position ascending), which is exactly stability. The
hypothesis states that the scorer returns one score per feature row, as
both the LightGBM path and `_mock_predict` do. -/
theorem rank_promotions_contract (predict : List (List ℚ) → List ℚ)
    (candidates : List Promo) (user_profile : Profile)
    (hlen : (predict (candidates.map fun c => extractFeatures c user_profile)).length =
      candidates.length) :
    (rank_promotions predict candidates user_profile).length = candidates.length ∧
    (candidates = [] → rank_promotions predict candidates user_profile = []) ∧
    ((rank_promotions predict candidates user_profile).map RankedPromo.id).Perm
      (candidates.enum.map fun p => p.2.id.getD ("promo_" ++ toString p.1)) ∧
    (rank_promotions predict candidates user_profile).Pairwise
      (fun a b => b.score ≤ a.score) ∧
    ∃ W : List (Nat × RankedPromo),
      W.Perm (((candidates.zip (predict (candidates.map fun c =>
          extractFeatures c user_profile))).enum.map fun p =>
            RankedPromo.mk (p.2.1.id.getD ("promo_" ++ toString p.1)) p.2.2).enum) ∧
      W.Pairwise (fun a b => b.2.score < a.2.score ∨ (a.2.score = b.2.score ∧ a.1 < b.1)) ∧
      rank_promotions predict candidates user_profile = W.map Prod.snd := by
  by_cases hc : candidates = []
  · subst hc
    refine ⟨by simp [rank_promotions], fun _ => by simp [rank_promotions], ?_, ?_,
      [], ?_, ?_, ?_⟩ <;> simp [rank_promotions]
  · set scores := predict (candidates.map fun c => extractFeatures c user_profile)
      with hscores
    set pre := (candidates.zip scores).enum.map (fun p =>
      RankedPromo.mk (p.2.1.id.getD ("promo_" ++ toString p.1)) p.2.2) with hpre
    have hout : rank_promotions predict candidates user_profile =
        (List.insertionSort rankedDescStable pre.enum).map Prod.snd := by
      unfold rank_promotions sortByScoreDesc
      rw [if_neg hc]
    set W := List.insertionSort rankedDescStable pre.enum with hW
    have hperm : W.Perm pre.enum := List.perm_insertionSort _ _
    have hsorted : W.Pairwise rankedDescStable := List.sorted_insertionSort _ _
    have hprelen : pre.length = candidates.length := by
      rw [hpre, List.length_map, List.enum_length, List.length_zip, hlen, min_self]
    have hnodup : (W.map Prod.fst).Nodup := by
      have h1 : (pre.enum.map Prod.fst).Nodup := by
        rw [List.enum_map_fst]
        exact List.nodup_range _
      exact ((hperm.map Prod.fst).symm).nodup h1
    have hne : W.Pairwise (fun a b => a.1 ≠ b.1) := List.pairwise_map.mp hnodup
    have hstrict : W.Pairwise
        (fun a b => b.2.score < a.2.score ∨ (a.2.score = b.2.score ∧ a.1 < b.1)) := by
      refine (hsorted.and hne).imp ?_
      rintro a b ⟨hab, hneq⟩
      rcases hab with hlt | ⟨heq, hle⟩
      · exact Or.inl hlt
      · exact Or.inr ⟨heq, lt_of_le_of_ne hle hneq⟩
    refine ⟨?_, fun h => absurd h hc, ?_, ?_, W, hperm, hstrict, hout⟩
    · rw [hout, List.length_map, hperm.length_eq, List.enum_length, hprelen]
    · rw [hout, List.map_map]
      refine (hperm.map (RankedPromo.id ∘ Prod.snd)).trans ?_
      have he : pre.enum.map (RankedPromo.id ∘ Prod.snd) =
          candidates.enum.map fun p => p.2.id.getD ("promo_" ++ toString p.1) := by
        rw [← List.map_map, List.enum_map_snd, hpre, List.map_map]
        exact zip_enumFrom_map_id candidates 0 scores hlen
      rw [he]
    · rw [hout, List.pairwise_map]
      refine hsorted.imp ?_
      rintro a b (hlt | ⟨heq, _⟩)
      · exact le_of_lt hlt
      · exact le_of_eq heq.symm

/-- The concrete candidate list for the ranking witness. -/
def wCand : List Promo := [{ id := some "c" }]

/-- A trivial length-preserving scorer for the ranking witness. -/
def wPredict : List (List ℚ) → List ℚ := fun fs => fs.map fun _ => 1

/-- Witness for `rank_promotions_contract` at a one-candidate input. -/
theorem rank_promotions_contract_witness :
    (wPredict (wCand.map fun c => extractFeatures c {})).length = wCand.length ∧
    ((rank_promotions wPredict wCand {}).length = wCand.length ∧
     (wCand = [] → rank_promotions wPredict wCand {} = []) ∧
     ((rank_promotions wPredict wCand {}).map RankedPromo.id).Perm
       (wCand.enum.map fun p => p.2.id.getD ("promo_" ++ toString p.1)) ∧
     (rank_promotions wPredict wCand {}).Pairwise (fun a b => b.score ≤ a.score) ∧
     ∃ W : List (Nat × RankedPromo),
       W.Perm (((wCand.zip (wPredict (wCand.map fun c =>
           extractFeatures c {}))).enum.map fun p =>
             RankedPromo.mk (p.2.1.id.getD ("promo_" ++ toString p.1)) p.2.2).enum) ∧
       W.Pairwise (fun a b => b.2.score < a.2.score ∨ (a.2.score = b.2.score ∧ a.1 < b.1)) ∧
       rank_promotions wPredict wCand {} = W.map Prod.snd) :=
  ⟨rfl, rank_promotions_contract wPredict wCand {} rfl⟩

/-! ## Ad slot placement (`src/mcp_server/tools/optimize_ad_slots.py`)

The source builds a single `List[str]` in which inserted ad-copy strings
are marked with a sponsorship banner. The embedding tags each output item
with its provenance (`organic` pass-through vs `sponsored` generated ad
copy), which is what the placement claims quantify over; the ad-copy text
itself (`_generate_ad_copy`) is string formatting irrelevant to the
claims and is abstracted as the `adCopy` parameter, applied to the same
arguments as in the source. -/

/-- An output slot: an organic result string or a rendered sponsored ad. -/
inductive SlotItem where
  | organic (s : String)
  | sponsored (ad : String)
deriving DecidableEq, Repr

/-- True exactly on sponsored slots. -/
def isSponsored : SlotItem → Bool
  | .sponsored _ => true
  | .organic _ => false

/-- `_calculate_insertion_positions` (lines 86-122): candidate 1-indexed
positions, filtered to be below the result count, truncated to the ad
count. -/
def calculateInsertionPositions (num_results num_ads : Nat) : List Nat :=
  if num_ads = 0 ∨ num_results < 2 then []
  else
    let positions :=
      if num_results ≤ 5 then
        (if 1 ≤ num_ads then [2] else []) ++
          (if 2 ≤ num_ads ∧ 4 ≤ num_results then [4] else [])
      else
        [2] ++ (if 2 ≤ num_ads then [5] else []) ++
          (if 3 ≤ num_ads ∧ 9 ≤ num_results then [8] else [])
    (positions.filter fun pos => pos < num_results).take num_ads

/-- The insertion loop of `_optimize_insertion_strategy` (lines 68-81):
walk the organic results with running index `i` and promotion pointer
`promotion_index`; after each organic item, if `i + 1` is an insertion
position and promotions remain, emit the next ad. -/
def injectGo (adCopy : Promo → List String → Nat → String) (search_results : List String)
    (selected : List Promo) (insertion_positions : List Nat) :
    Nat → Nat → List String → List SlotItem
  | _, _, [] => []
  | i, promotion_index, result :: rest =>
    SlotItem.organic result ::
      (if (i + 1) ∈ insertion_positions ∧ promotion_index < selected.length then
        SlotItem.sponsored (adCopy (selected.getD promotion_index default) search_results i) ::
          injectGo adCopy search_results selected insertion_positions
            (i + 1) (promotion_index + 1) rest
      else
        injectGo adCopy search_results selected insertion_positions (i + 1) promotion_index rest)

/-- `_optimize_insertion_strategy` (lines 42-83). -/
def optimizeInsertionStrategy (adCopy : Promo → List String → Nat → String)
    (search_results : List String) (promotions : List Promo) : List SlotItem :=
  if search_results.length < 2 then search_results.map SlotItem.organic
  else
    let max_ads := min (min promotions.length 3) (search_results.length / 3)
    if max_ads = 0 then search_results.map SlotItem.organic
    else
      let selected_promotions := promotions.take max_ads
      let insertion_positions := calculateInsertionPositions search_results.length max_ads
      injectGo adCopy search_results selected_promotions insertion_positions 0 0 search_results

/-- `optimize_ad_slots_tool` (lines 10-39); the `except` branch is dead in
the pure model, so the function is the guarded happy path. -/
def optimizeAdSlotsTool (adCopy : Promo → List String → Nat → String)
    (search_results : List String) (promotions : List Promo) : List SlotItem :=
  if search_results = [] then []
  else if promotions = [] then search_results.map SlotItem.organic
  else optimizeInsertionStrategy adCopy search_results promotions

theorem isSponsored_organic (s : String) : isSponsored (SlotItem.organic s) = false := rfl

theorem isSponsored_sponsored (s : String) : isSponsored (SlotItem.sponsored s) = true := rfl

theorem injectGo_countP_sponsored_le (adCopy : Promo → List String → Nat → String)
    (search_results : List String) (selected : List Promo) (insertion_positions : List Nat) :
    ∀ (l : List String) (i promotion_index : Nat),
      (injectGo adCopy search_results selected insertion_positions i promotion_index l).countP
          (fun x => isSponsored x) ≤ selected.length - promotion_index := by
  intro l
  induction l with
  | nil => intro i p; simp [injectGo]
  | cons r rest ih =>
    intro i p
    rw [injectGo]
    by_cases h : (i + 1) ∈ insertion_positions ∧ p < selected.length
    · rw [if_pos h]
      simp [List.countP_cons, isSponsored_organic, isSponsored_sponsored]
      have h1 := ih (i + 1) (p + 1)
      omega
    · rw [if_neg h]
      simp [List.countP_cons, isSponsored_organic, isSponsored_sponsored]
      have h1 := ih (i + 1) p
      omega

theorem injectGo_length (adCopy : Promo → List String → Nat → String)
    (search_results : List String) (selected : List Promo) (insertion_positions : List Nat) :
    ∀ (l : List String) (i promotion_index : Nat),
      (injectGo adCopy search_results selected insertion_positions i promotion_index l).length =
        l.length +
          (injectGo adCopy search_results selected insertion_positions i
            promotion_index l).countP (fun x => isSponsored x) := by
  intro l
  induction l with
  | nil => intro i p; simp [injectGo]
  | cons r rest ih =>
    intro i p
    rw [injectGo]
    by_cases h : (i + 1) ∈ insertion_positions ∧ p < selected.length
    · rw [if_pos h]
      simp [List.length_cons, List.countP_cons, isSponsored_organic, isSponsored_sponsored]
      have h1 := ih (i + 1) (p + 1)
      omega
    · rw [if_neg h]
      simp [List.length_cons, List.countP_cons, isSponsored_organic, isSponsored_sponsored]
      have h1 := ih (i + 1) p
      omega

theorem countP_sponsored_map_organic (l : List String) :
    (l.map SlotItem.organic).countP (fun x => isSponsored x) = 0 := by
  rw [List.countP_map]
  have h : ((fun x => isSponsored x) ∘ SlotItem.organic) = fun _ => false := by
    funext s
    rfl
  rw [h, List.countP_false]
  rfl

theorem injectGo_head (adCopy : Promo → List String → Nat → String)
    (search_results : List String) (selected : List Promo) (insertion_positions : List Nat)
    (i promotion_index : Nat) (r : String) (rest : List String) :
    (injectGo adCopy search_results selected insertion_positions i promotion_index
      (r :: rest)).head? = some (SlotItem.organic r) := by
  rw [injectGo]
  by_cases h : (i + 1) ∈ insertion_positions ∧ promotion_index < selected.length
  · rw [if_pos h]; rfl
  · rw [if_neg h]; rfl

/-- C4: for any organic list of length at least 2 and non-empty promotion
list, the first output slot is the first organic item (never sponsored),
the number of sponsored slots is at most
`min (min |promotions| 3) (L / 3)`, and the output length is the organic
length plus the number of sponsored slots. -/
theorem placement_invariants (adCopy : Promo → List String → Nat → String)
    (search_results : List String) (promotions : List Promo)
    (hL : 2 ≤ search_results.length) (hp : promotions ≠ []) :
    (optimizeAdSlotsTool adCopy search_results promotions).head? =
      search_results.head?.map SlotItem.organic ∧
    (optimizeAdSlotsTool adCopy search_results promotions).countP
        (fun x => isSponsored x) ≤
      min (min promotions.length 3) (search_results.length / 3) ∧
    (optimizeAdSlotsTool adCopy search_results promotions).length =
      search_results.length +
        (optimizeAdSlotsTool adCopy search_results promotions).countP
          (fun x => isSponsored x) := by
  have hne : search_results ≠ [] := by
    intro h
    rw [h] at hL
    simp at hL
  unfold optimizeAdSlotsTool
  rw [if_neg hne, if_neg hp]
  unfold optimizeInsertionStrategy
  rw [if_neg (by omega : ¬ search_results.length < 2)]
  by_cases hm : min (min promotions.length 3) (search_results.length / 3) = 0
  · rw [if_pos hm]
    refine ⟨List.head?_map _ _, ?_, ?_⟩
    · rw [countP_sponsored_map_organic]
      exact Nat.zero_le _
    · rw [countP_sponsored_map_organic, List.length_map, Nat.add_zero]
  · rw [if_neg hm]
    dsimp only
    refine ⟨?_, ?_, ?_⟩
    · cases search_results with
      | nil => exact absurd rfl hne
      | cons r rest => exact injectGo_head _ _ _ _ _ _ _ _
    · have h1 := injectGo_countP_sponsored_le adCopy search_results
        (promotions.take (min (min promotions.length 3) (search_results.length / 3)))
        (calculateInsertionPositions search_results.length
          (min (min promotions.length 3) (search_results.length / 3)))
        search_results 0 0
      have h2 : (promotions.take (min (min promotions.length 3)
          (search_results.length / 3))).length =
          min (min (min promotions.length 3) (search_results.length / 3))
            promotions.length := List.length_take _ _
      omega
    · exact injectGo_length adCopy search_results _ _ search_results 0 0

/-- Witness to `placement_invariants` on five organic strings and one
promotion. -/
theorem placement_invariants_witness :
    2 ≤ (["r1", "r2", "r3", "r4", "r5"] : List String).length ∧
    ([({} : Promo)] : List Promo) ≠ [] ∧
    ((optimizeAdSlotsTool (fun _ _ _ => "ad") ["r1", "r2", "r3", "r4", "r5"]
        [{}]).head? =
      (["r1", "r2", "r3", "r4", "r5"] : List String).head?.map SlotItem.organic ∧
    (optimizeAdSlotsTool (fun _ _ _ => "ad") ["r1", "r2", "r3", "r4", "r5"]
        [{}]).countP (fun x => isSponsored x) ≤
      min (min ([({} : Promo)] : List Promo).length 3)
        ((["r1", "r2", "r3", "r4", "r5"] : List String).length / 3) ∧
    (optimizeAdSlotsTool (fun _ _ _ => "ad") ["r1", "r2", "r3", "r4", "r5"]
        [{}]).length =
      (["r1", "r2", "r3", "r4", "r5"] : List String).length +
        (optimizeAdSlotsTool (fun _ _ _ => "ad") ["r1", "r2", "r3", "r4", "r5"]
          [{}]).countP (fun x => isSponsored x)) :=
  ⟨by decide, by decide,
   placement_invariants (fun _ _ _ => "ad") ["r1", "r2", "r3", "r4", "r5"] [{}]
     (by decide) (by decide)⟩

/-- C6: the placement short-circuits — empty organic input yields empty
output regardless of promotions; an empty promotion list yields the
organic input unchanged (every slot organic); fewer than 2 organic items
yield the organic input unchanged with no ads inserted. -/
theorem placement_pass_through (adCopy : Promo → List String → Nat → String)
    (search_results : List String) (promotions : List Promo) :
    (search_results = [] → optimizeAdSlotsTool adCopy search_results promotions = []) ∧
    (promotions = [] →
      optimizeAdSlotsTool adCopy search_results promotions =
        search_results.map SlotItem.organic) ∧
    (search_results.length < 2 →
      optimizeAdSlotsTool adCopy search_results promotions =
        search_results.map SlotItem.organic) := by
  refine ⟨?_, ?_, ?_⟩
  · intro h
    unfold optimizeAdSlotsTool
    rw [if_pos h]
  · intro h
    unfold optimizeAdSlotsTool
    by_cases hs : search_results = []
    · rw [if_pos hs, hs]
      rfl
    · rw [if_neg hs, if_pos h]
  · intro h
    unfold optimizeAdSlotsTool
    by_cases hs : search_results = []
    · rw [if_pos hs, hs]
      rfl
    · rw [if_neg hs]
      by_cases hpr : promotions = []
      · rw [if_pos hpr]
      · rw [if_neg hpr]
        unfold optimizeInsertionStrategy
        rw [if_pos h]

/-- Witness to `placement_pass_through`, discharging each of its three
guards on concrete inputs. -/
theorem placement_pass_through_witness :
    (optimizeAdSlotsTool (fun _ _ _ => "ad") [] [{}] = []) ∧
    (optimizeAdSlotsTool (fun _ _ _ => "ad") ["r1", "r2"] [] =
      (["r1", "r2"] : List String).map SlotItem.organic) ∧
    (optimizeAdSlotsTool (fun _ _ _ => "ad") ["r1"] [{}] =
      (["r1"] : List String).map SlotItem.organic) :=
  ⟨(placement_pass_through (fun _ _ _ => "ad") [] [{}]).1 rfl,
   (placement_pass_through (fun _ _ _ => "ad") ["r1", "r2"] []).2.1 rfl,
   (placement_pass_through (fun _ _ _ => "ad") ["r1"] [{}]).2.2 (by decide)⟩

/-- C1 counterexample: with exactly 5 organic results and 2 promotions
the ad count is `min 2 3 (5 / 3) = 1`, so exactly ONE sponsored slot is
inserted and the output has length 6, not the 2 slots / length 7 of the
claim. -/
theorem placement_five_two_cex :
    (optimizeAdSlotsTool (fun _ _ _ => "ad") ["r1", "r2", "r3", "r4", "r5"]
        [{ id := some "p1" }, { id := some "p2" }]).countP (fun x => isSponsored x) = 1 ∧
    (optimizeAdSlotsTool (fun _ _ _ => "ad") ["r1", "r2", "r3", "r4", "r5"]
        [{ id := some "p1" }, { id := some "p2" }]).length = 6 ∧
    ¬ ((optimizeAdSlotsTool (fun _ _ _ => "ad") ["r1", "r2", "r3", "r4", "r5"]
        [{ id := some "p1" }, { id := some "p2" }]).countP (fun x => isSponsored x) = 2 ∧
       (optimizeAdSlotsTool (fun _ _ _ => "ad") ["r1", "r2", "r3", "r4", "r5"]
        [{ id := some "p1" }, { id := some "p2" }]).length = 7) := by
  decide

/-- C1 (amended): for 5 organic results and 2 promotions, exactly one
sponsored slot is inserted, immediately after organic position 2 (so at
output index 2), using the FIRST promotion, and the output length is 6. -/
theorem placement_five_two_amended (adCopy : Promo → List String → Nat → String)
    (a b c d e : String) (p q : Promo) :
    optimizeAdSlotsTool adCopy [a, b, c, d, e] [p, q] =
      [SlotItem.organic a, SlotItem.organic b,
       SlotItem.sponsored (adCopy p [a, b, c, d, e] 1),
       SlotItem.organic c, SlotItem.organic d, SlotItem.organic e] := by
  unfold optimizeAdSlotsTool
  rw [if_neg (by simp), if_neg (by simp)]
  unfold optimizeInsertionStrategy
  norm_num
  rfl

end PromoSearch
